import Mathlib

/-!
# RockRider feed core: a shallow embedding

This file embeds the feed-candidate-selection and ranking logic of the
RockRider backend: the three feed endpoints of the posts route
(`GET /feed/following`, `GET /feed/for-you`, `GET /discover`) and the
like/unlike/isLikedBy methods of the Post model.

Modelling conventions:
* Mongo ObjectIds are `Nat`; timestamps (`Date.now()`, `createdAt`) are `Int`
  milliseconds.
* A Mongo `find(filter).sort(keys).skip(s).limit(n)` query is embedded as
  `List.filter`, a stable insertion sort under a boolean "comes first" key,
  `List.drop` and `List.take` over the post collection.
* The per-document conversion `post.toObject()` can fail at runtime (the route
  guards `typeof post.toObject !== 'function'` and a try/catch); this fallible
  step is modelled by a `materializes` flag carried on each post record.
* The for-you shuffle `.sort(() => Math.random() - 0.5)` is a
  non-deterministic permutation of the deduplicated candidate list; theorems
  about for-you output quantify over every list `shuffled` that is a
  permutation of those candidates.
-/

/-- User account type, mirroring the `userType` enum `['artist', 'fan']` of the
user schema. -/
inductive UserType where
  | artist
  | fan
  deriving DecidableEq

/-- A post document, with the fields the feed core reads: `author`, `createdAt`,
the `likes` array (liker user ids), the `comments` array (projected to its
commenter ids — the feed logic only reads `$size: '$comments'`), the `isActive`
soft-delete flag and the `isPinned` flag.  `materializes` models whether
`post.toObject()` succeeds for this record (the routes drop records for which
it does not). -/
structure Post where
  id : Nat
  author : Nat
  createdAt : Int
  likes : List Nat
  comments : List Nat
  isActive : Bool
  isPinned : Bool
  materializes : Bool
  deriving DecidableEq

/-- A user document, with the fields the feed core reads: the `following`
array, `userType` and `isVerified`. -/
structure User where
  id : Nat
  following : List Nat
  userType : UserType
  isVerified : Bool
  deriving DecidableEq

/-- Virtual `likesCount`: `this.likes.length`. -/
def Post.likesCount (p : Post) : Nat := p.likes.length

/-- Virtual `commentsCount`: `this.comments.length`. -/
def Post.commentsCount (p : Post) : Nat := p.comments.length

/-- Method `isLikedBy`: `this.likes.some(id => id.equals(userIdObj))`.
The `!userId` null guard of the source is handled at call sites by `Option`. -/
def Post.isLikedBy (p : Post) (userId : Nat) : Bool :=
  decide (userId ∈ p.likes)

/-- Method `like`: push `userId` onto `likes` unless some element already
equals it, i.e. `if (!this.likes.some(id => id.equals(userIdObj)))
this.likes.push(userIdObj)`. -/
def Post.like (p : Post) (userId : Nat) : Post :=
  if userId ∈ p.likes then p else { p with likes := p.likes ++ [userId] }

/-- Method `unlike`: `this.likes = this.likes.filter(id =>
!id.equals(userIdObj))`. -/
def Post.unlike (p : Post) (userId : Nat) : Post :=
  { p with likes := p.likes.filter fun i => decide (i ≠ userId) }

/-- The response object built for one post: the post's own data plus the
viewer-specific `isLikedByUser` annotation, which is set only when a viewer is
known (`if (req.user) postObj.isLikedByUser = post.isLikedBy(...)` in
discover; always set in the authenticated feeds). -/
structure PostObj where
  post : Post
  isLikedByUser : Option Bool
  deriving DecidableEq

/-- The JSON feed response: the decorated posts plus the pagination block
`{ page, limit, hasNext }`. -/
structure FeedResponse where
  posts : List PostObj
  page : Nat
  limit : Nat
  hasNext : Bool
  deriving DecidableEq

/-- `post.toObject()` followed by the `isLikedByUser` annotation. -/
def mkPostObj (viewer : Option Nat) (p : Post) : PostObj :=
  { post := p, isLikedByUser := viewer.map fun v => p.isLikedBy v }

/-- The `postsWithUserData` mapping shared verbatim by all three feed routes:
each post is converted with `toObject()` and annotated; a record whose
conversion fails is mapped to `null` and filtered out
(`.map(...).filter(post => post !== null)`). -/
def postsWithUserData (viewer : Option Nat) (posts : List Post) : List PostObj :=
  posts.filterMap fun p =>
    if p.materializes then some (mkPostObj viewer p) else none

/-- Stable insertion of `x` into `l` under the boolean key `le` (`le a b` means
`a` sorts no later than `b`). -/
def insertLe {α : Type} (le : α → α → Bool) (x : α) : List α → List α
  | [] => [x]
  | y :: ys => if le x y then x :: y :: ys else y :: insertLe le x ys

/-- Stable insertion sort: the embedding of a Mongo `.sort(keys)` stage. -/
def sortLe {α : Type} (le : α → α → Bool) : List α → List α
  | [] => []
  | x :: xs => insertLe le x (sortLe le xs)

/-- One day in milliseconds, as in `24 * 60 * 60 * 1000`. -/
def dayMs : Int := 24 * 60 * 60 * 1000

/-- The `.sort({ isPinned: -1, createdAt: -1 })` key of the following feed:
pinned posts first, then newer posts first. -/
def byPinnedCreated (a b : Post) : Bool :=
  (a.isPinned && !b.isPinned) ||
    (a.isPinned == b.isPinned && decide (b.createdAt ≤ a.createdAt))

/-- The `.sort({ createdAt: -1 })` key of for-you pools and the discover feed:
newer posts first. -/
def byCreated (a b : Post) : Bool :=
  decide (b.createdAt ≤ a.createdAt)

/-- The `.skip((page - 1) * limit).limit(limit)` stage of the single-pool
feeds, and the `.slice((page - 1) * limit, page * limit)` stage of for-you
(the two agree for the `page ≥ 1` the routes produce, since
`parseInt(req.query.page) || 1` defaults falsy values to 1). -/
def pageWindow (l : List Post) (page limit : Nat) : List Post :=
  (l.drop ((page - 1) * limit)).take limit

/-- A `find(f).sort(le).limit(n)` query with no skip, as issued for the three
for-you candidate pools. -/
def queryTop (db : List Post) (f : Post → Bool) (le : Post → Post → Bool)
    (n : Nat) : List Post :=
  (sortLe le (db.filter f)).take n

/-- The following-feed filter.  The route has two branches on
`followingIds.length === 0` that differ only in the filter document:
author-is-viewer when the viewer follows nobody, otherwise
`$or` of author-is-viewer and author `$in` the following set; both require
`isActive: true`. -/
def followingFilter (u : User) (p : Post) : Bool :=
  if u.following.isEmpty then decide (p.author = u.id) && p.isActive
  else (decide (p.author = u.id) || decide (p.author ∈ u.following)) && p.isActive

/-- The full sorted result set of the following-feed query, before
skip/limit. -/
def followingCandidates (db : List Post) (u : User) : List Post :=
  sortLe byPinnedCreated (db.filter (followingFilter u))

/-- The post list returned by the following-feed Mongo query (after
skip/limit). -/
def followingQuery (db : List Post) (u : User) (page limit : Nat) : List Post :=
  pageWindow (followingCandidates db u) page limit

/-- `GET /feed/following` for an authenticated viewer `u`:
`hasNext: posts.length === limit` is computed on the query result, before
`postsWithUserData` drops non-materializing records. -/
def followingFeed (db : List Post) (u : User) (page limit : Nat) : FeedResponse :=
  let posts := followingQuery db u page limit
  { posts := postsWithUserData (some u.id) posts
    page := page
    limit := limit
    hasNext := decide (posts.length = limit) }

/-- `const excludeIds = [user._id, ...(user.following || [])]`. -/
def excludeIds (u : User) : List Nat := u.id :: u.following

/-- `User.find({ userType: 'artist', isVerified: true, _id: { $nin:
excludeIds } }).distinct('_id')`. -/
def verifiedArtistIds (users : List User) (u : User) : List Nat :=
  (users.filter fun w =>
    decide (w.userType = UserType.artist) && w.isVerified &&
      decide (w.id ∉ excludeIds u)).map User.id

/-- For-you pool 1, "recent popular": author `$nin` excludeIds, active,
created in the last 14 days, `likes.length + comments.length ≥ 1`, newest
first, limited to `Math.floor(limit * 0.4)` (embedded as Nat floor
division `limit * 4 / 10`). -/
def recentPopularPool (db : List Post) (u : User) (now : Int) (limit : Nat) :
    List Post :=
  queryTop db
    (fun p => decide (p.author ∉ excludeIds u) && p.isActive &&
      decide (now - 14 * dayMs ≤ p.createdAt) &&
      decide (1 ≤ p.likes.length + p.comments.length))
    byCreated (limit * 4 / 10)

/-- For-you pool 2, "verified artists": author `$nin` excludeIds and `$in` the
verified-artist id list, active, created in the last 21 days, newest first,
limited to `Math.floor(limit * 0.3)` (embedded as `limit * 3 / 10`). -/
def verifiedArtistsPool (db : List Post) (users : List User) (u : User)
    (now : Int) (limit : Nat) : List Post :=
  queryTop db
    (fun p => decide (p.author ∉ excludeIds u) &&
      decide (p.author ∈ verifiedArtistIds users u) && p.isActive &&
      decide (now - 21 * dayMs ≤ p.createdAt))
    byCreated (limit * 3 / 10)

/-- For-you pool 3, "recent diverse": author `$nin` excludeIds, active, created
in the last 7 days, newest first, limited to `limit - algorithmPosts.length`. -/
def recentDiversePool (db : List Post) (u : User) (now : Int) (n : Nat) :
    List Post :=
  queryTop db
    (fun p => decide (p.author ∉ excludeIds u) && p.isActive &&
      decide (now - 7 * dayMs ≤ p.createdAt))
    byCreated n

/-- The concatenated `algorithmPosts` of the for-you route: pool 1 always,
pools 2 and 3 only while `algorithmPosts.length < limit`. -/
def forYouPools (db : List Post) (users : List User) (u : User) (now : Int)
    (limit : Nat) : List Post :=
  let acc1 := recentPopularPool db u now limit
  let acc2 :=
    if acc1.length < limit then acc1 ++ verifiedArtistsPool db users u now limit
    else acc1
  if acc2.length < limit then acc2 ++ recentDiversePool db u now (limit - acc2.length)
  else acc2

/-- Helper for `uniquePosts`, carrying the set of post ids already emitted. -/
def uniquePostsAux (seen : List Nat) : List Post → List Post
  | [] => []
  | p :: rest =>
    if p.id ∈ seen then uniquePostsAux seen rest
    else p :: uniquePostsAux (p.id :: seen) rest

/-- The `uniquePosts` deduplication of the for-you route:
`algorithmPosts.filter((post, index, self) => index === self.findIndex(p =>
p._id.toString() === post._id.toString()))`, i.e. keep exactly the first
occurrence of each post id. -/
def uniquePosts (l : List Post) : List Post := uniquePostsAux [] l

/-- The `.slice((page - 1) * limit, page * limit)` window applied to the
shuffled for-you candidates. -/
def forYouPage (shuffled : List Post) (page limit : Nat) : List Post :=
  pageWindow shuffled page limit

/-- `GET /feed/for-you` for viewer `u`, given the (nondeterministically)
shuffled deduplicated candidate list: `hasNext: shuffledPosts.length ===
limit` is computed on the windowed slice. -/
def forYouFeed (shuffled : List Post) (u : User) (page limit : Nat) :
    FeedResponse :=
  let sp := forYouPage shuffled page limit
  { posts := postsWithUserData (some u.id) sp
    page := page
    limit := limit
    hasNext := decide (sp.length = limit) }

/-- The discover filter: `isActive: true` and (`likes.length +
comments.length ≥ 1` `$or` created in the last 7 days). -/
def discoverFilter (now : Int) (p : Post) : Bool :=
  p.isActive &&
    (decide (1 ≤ p.likes.length + p.comments.length) ||
      decide (now - 7 * dayMs ≤ p.createdAt))

/-- The full sorted discover result set, before skip/limit. -/
def discoverCandidates (db : List Post) (now : Int) : List Post :=
  sortLe byCreated (db.filter (discoverFilter now))

/-- The post list returned by the discover Mongo query (after skip/limit). -/
def discoverQuery (db : List Post) (now : Int) (page limit : Nat) : List Post :=
  pageWindow (discoverCandidates db now) page limit

/-- `GET /discover` with an optional viewer: anonymous requests get no
`isLikedByUser` annotation; `hasNext` again compares the query result length
with `limit`. -/
def discoverFeed (db : List Post) (now : Int) (viewer : Option Nat)
    (page limit : Nat) : FeedResponse :=
  let posts := discoverQuery db now page limit
  { posts := postsWithUserData viewer posts
    page := page
    limit := limit
    hasNext := decide (posts.length = limit) }

/-! ## Concrete records, used to evaluate the embedded feeds on closed inputs -/

/-- A viewer who follows user 5. -/
def wViewer : User :=
  { id := 77, following := [5], userType := UserType.fan, isVerified := false }

/-- A viewer with an empty following-set. -/
def wSolo : User :=
  { id := 77, following := [], userType := UserType.fan, isVerified := false }

/-- A recent post by an unrelated author with one like. -/
def wPost : Post :=
  { id := 1, author := 9, createdAt := -dayMs, likes := [3], comments := [],
    isActive := true, isPinned := false, materializes := true }

/-- A post liked by user 5. -/
def wLikedPost : Post :=
  { id := 2, author := 9, createdAt := 0, likes := [5], comments := [],
    isActive := true, isPinned := false, materializes := true }

/-- A post whose `toObject()` conversion fails. -/
def wBadPost : Post :=
  { id := 3, author := 9, createdAt := 0, likes := [], comments := [],
    isActive := true, isPinned := false, materializes := false }

/-- A post authored by viewer 77. -/
def wOwnPost : Post :=
  { id := 4, author := 77, createdAt := 0, likes := [], comments := [],
    isActive := true, isPinned := false, materializes := true }

/-- A post with zero likes and comments created 8 days before the reference
time 0. -/
def stalePost : Post :=
  { id := 10, author := 9, createdAt := -(8 * dayMs), likes := [], comments := [],
    isActive := true, isPinned := false, materializes := true }

/-- The same interaction-free post created 1 day before the reference time. -/
def freshPost : Post :=
  { id := 10, author := 9, createdAt := -dayMs, likes := [], comments := [],
    isActive := true, isPinned := false, materializes := true }

/-- The `i`-th post of a viewer-authored collection; post 3 fails to
materialize. -/
def mkOwnPost (i : Nat) : Post :=
  { id := i, author := 77, createdAt := Int.ofNat i, likes := [], comments := [],
    isActive := true, isPinned := false, materializes := decide (i ≠ 3) }

/-- Ten active viewer-authored posts (one of which fails to materialize). -/
def wDbTen : List Post := (List.range 10).map mkOwnPost

/-- Seven active viewer-authored posts. -/
def wDbSeven : List Post := (List.range 7).map mkOwnPost

/-! ## Helper lemmas about the embedded query combinators -/

theorem mem_insertLe {α : Type} (le : α → α → Bool) (x : α) (l : List α)
    (y : α) : y ∈ insertLe le x l ↔ y = x ∨ y ∈ l := by
  induction l with
  | nil => simp [insertLe]
  | cons z zs ih =>
    by_cases h : le x z = true
    · simp [insertLe, h]
    · simp only [insertLe, if_neg h, List.mem_cons, ih]
      tauto

theorem perm_insertLe {α : Type} (le : α → α → Bool) (x : α) (l : List α) :
    (insertLe le x l).Perm (x :: l) := by
  induction l with
  | nil => simp [insertLe]
  | cons z zs ih =>
    by_cases h : le x z = true
    · simp [insertLe, h]
    · rw [insertLe, if_neg h]
      exact (ih.cons z).trans (List.Perm.swap x z zs)

theorem perm_sortLe {α : Type} (le : α → α → Bool) (l : List α) :
    (sortLe le l).Perm l := by
  induction l with
  | nil => simp [sortLe]
  | cons x xs ih =>
    rw [sortLe]
    exact (perm_insertLe le x (sortLe le xs)).trans (ih.cons x)

theorem mem_sortLe {α : Type} (le : α → α → Bool) (l : List α) (y : α) :
    y ∈ sortLe le l ↔ y ∈ l :=
  (perm_sortLe le l).mem_iff

theorem pairwise_insertLe {α : Type} (le : α → α → Bool)
    (htot : ∀ a b, le a b = true ∨ le b a = true)
    (htrans : ∀ a b c, le a b = true → le b c = true → le a c = true)
    (x : α) (l : List α) (h : l.Pairwise fun a b => le a b = true) :
    (insertLe le x l).Pairwise fun a b => le a b = true := by
  induction l with
  | nil => simp [insertLe]
  | cons z zs ih =>
    rcases List.pairwise_cons.mp h with ⟨hz, hzs⟩
    by_cases hle : le x z = true
    · rw [insertLe, if_pos hle]
      refine List.pairwise_cons.mpr ⟨?_, h⟩
      intro b hb
      rcases List.mem_cons.mp hb with rfl | hb
      · exact hle
      · exact htrans x z b hle (hz b hb)
    · rw [insertLe, if_neg hle]
      refine List.pairwise_cons.mpr ⟨?_, ih hzs⟩
      intro b hb
      rcases (mem_insertLe le x zs b).mp hb with hbx | hb
      · rw [hbx]
        rcases htot x z with h1 | h1
        · exact absurd h1 hle
        · exact h1
      · exact hz b hb

theorem pairwise_sortLe {α : Type} (le : α → α → Bool)
    (htot : ∀ a b, le a b = true ∨ le b a = true)
    (htrans : ∀ a b c, le a b = true → le b c = true → le a c = true)
    (l : List α) : (sortLe le l).Pairwise fun a b => le a b = true := by
  induction l with
  | nil => simp [sortLe]
  | cons x xs ih => exact pairwise_insertLe le htot htrans x _ ih

theorem byPinnedCreated_total (a b : Post) :
    byPinnedCreated a b = true ∨ byPinnedCreated b a = true := by
  unfold byPinnedCreated
  cases hA : a.isPinned <;> cases hB : b.isPinned <;> simp [hA, hB] <;> omega

theorem byPinnedCreated_trans (a b c : Post) (h1 : byPinnedCreated a b = true)
    (h2 : byPinnedCreated b c = true) : byPinnedCreated a c = true := by
  unfold byPinnedCreated at h1 h2 ⊢
  cases hA : a.isPinned <;> cases hB : b.isPinned <;> cases hC : c.isPinned <;>
    simp [hA, hB, hC] at h1 h2 ⊢ <;> omega

theorem byCreated_total (a b : Post) :
    byCreated a b = true ∨ byCreated b a = true := by
  simp only [byCreated, decide_eq_true_eq]
  omega

theorem byCreated_trans (a b c : Post) (h1 : byCreated a b = true)
    (h2 : byCreated b c = true) : byCreated a c = true := by
  simp only [byCreated, decide_eq_true_eq] at h1 h2 ⊢
  omega

theorem mem_queryTop {db : List Post} {f : Post → Bool}
    {le : Post → Post → Bool} {n : Nat} {p : Post}
    (hp : p ∈ queryTop db f le n) : p ∈ db ∧ f p = true := by
  have h1 : p ∈ sortLe le (db.filter f) := List.mem_of_mem_take hp
  exact List.mem_filter.mp ((mem_sortLe le _ p).mp h1)

theorem mem_pageWindow {l : List Post} {page limit : Nat} {p : Post}
    (hp : p ∈ pageWindow l page limit) : p ∈ l :=
  List.mem_of_mem_drop (List.mem_of_mem_take hp)

theorem length_pageWindow_le (l : List Post) (page limit : Nat) :
    (pageWindow l page limit).length ≤ limit :=
  List.length_take_le _ _

theorem mem_followingQuery {db : List Post} {u : User} {page limit : Nat}
    {p : Post} (hp : p ∈ followingQuery db u page limit) :
    p ∈ db ∧ followingFilter u p = true := by
  have h1 : p ∈ followingCandidates db u := mem_pageWindow hp
  exact List.mem_filter.mp ((mem_sortLe _ _ p).mp h1)

theorem mem_discoverQuery {db : List Post} {now : Int} {page limit : Nat}
    {p : Post} (hp : p ∈ discoverQuery db now page limit) :
    p ∈ db ∧ discoverFilter now p = true := by
  have h1 : p ∈ discoverCandidates db now := mem_pageWindow hp
  exact List.mem_filter.mp ((mem_sortLe _ _ p).mp h1)

theorem mem_postsWithUserData {viewer : Option Nat} {posts : List Post}
    {obj : PostObj} :
    obj ∈ postsWithUserData viewer posts ↔
      obj.post ∈ posts ∧ obj.post.materializes = true ∧
        obj = mkPostObj viewer obj.post := by
  constructor
  · intro h
    rcases List.mem_filterMap.mp h with ⟨p, hp, hf⟩
    split at hf
    · next hm =>
      injection hf with hq
      subst hq
      exact ⟨hp, hm, rfl⟩
    · cases hf
  · rintro ⟨h1, h2, h3⟩
    exact List.mem_filterMap.mpr ⟨obj.post, h1, by rw [if_pos h2, ← h3]⟩

theorem postsWithUserData_sublist (viewer : Option Nat) (posts : List Post) :
    List.Sublist (postsWithUserData viewer posts)
      (posts.map (mkPostObj viewer)) := by
  induction posts with
  | nil => simp [postsWithUserData]
  | cons p ps ih =>
    by_cases hm : p.materializes = true
    · simpa [postsWithUserData, List.filterMap_cons, hm] using
        ih.cons₂ (mkPostObj viewer p)
    · simpa [postsWithUserData, List.filterMap_cons, hm] using
        ih.cons (mkPostObj viewer p)

theorem uniquePostsAux_sublist (seen : List Nat) (l : List Post) :
    List.Sublist (uniquePostsAux seen l) l := by
  induction l generalizing seen with
  | nil => simp [uniquePostsAux]
  | cons p rest ih =>
    by_cases h : p.id ∈ seen
    · rw [uniquePostsAux, if_pos h]
      exact (ih seen).cons p
    · rw [uniquePostsAux, if_neg h]
      exact (ih (p.id :: seen)).cons₂ p

theorem mem_uniquePostsAux {seen : List Nat} {l : List Post} {q : Post}
    (hq : q ∈ uniquePostsAux seen l) : q ∈ l ∧ q.id ∉ seen := by
  induction l generalizing seen with
  | nil => simp [uniquePostsAux] at hq
  | cons p rest ih =>
    by_cases h : p.id ∈ seen
    · rw [uniquePostsAux, if_pos h] at hq
      rcases ih hq with ⟨h1, h2⟩
      exact ⟨List.mem_cons_of_mem p h1, h2⟩
    · rw [uniquePostsAux, if_neg h] at hq
      rcases List.mem_cons.mp hq with rfl | hq2
      · exact ⟨List.mem_cons_self _ _, h⟩
      · rcases ih hq2 with ⟨h1, h2⟩
        exact ⟨List.mem_cons_of_mem p h1,
          fun hc => h2 (List.mem_cons_of_mem _ hc)⟩

theorem nodup_ids_uniquePostsAux (seen : List Nat) (l : List Post) :
    ((uniquePostsAux seen l).map Post.id).Nodup ∧
      ∀ n ∈ (uniquePostsAux seen l).map Post.id, n ∉ seen := by
  induction l generalizing seen with
  | nil => simp [uniquePostsAux]
  | cons p rest ih =>
    by_cases h : p.id ∈ seen
    · rw [uniquePostsAux, if_pos h]
      exact ih seen
    · rcases ih (p.id :: seen) with ⟨h1, h2⟩
      rw [uniquePostsAux, if_neg h]
      rw [List.map_cons, List.nodup_cons]
      refine ⟨⟨?_, h1⟩, ?_⟩
      · intro hc
        exact (h2 p.id hc) (List.mem_cons_self _ _)
      · intro n hn
        rcases List.mem_cons.mp hn with rfl | hn2
        · exact h
        · exact fun hc => (h2 n hn2) (List.mem_cons_of_mem _ hc)

theorem mem_ids_uniquePostsAux {seen : List Nat} {l : List Post} {p : Post}
    (hp : p ∈ l) (hs : p.id ∉ seen) :
    p.id ∈ (uniquePostsAux seen l).map Post.id := by
  induction l generalizing seen with
  | nil => simp at hp
  | cons q rest ih =>
    by_cases h : q.id ∈ seen
    · rw [uniquePostsAux, if_pos h]
      rcases List.mem_cons.mp hp with rfl | hp2
      · exact absurd h hs
      · exact ih hp2 hs
    · rw [uniquePostsAux, if_neg h, List.map_cons]
      by_cases hid : p.id = q.id
      · exact hid ▸ List.mem_cons_self _ _
      · rcases List.mem_cons.mp hp with rfl | hp2
        · exact List.mem_cons_self _ _
        · refine List.mem_cons_of_mem _ (ih hp2 ?_)
          intro hc
          rcases List.mem_cons.mp hc with hc1 | hc2
          · exact hid hc1
          · exact hs hc2

theorem find_uniquePostsAux {seen : List Nat} {l : List Post} {q : Post}
    (hq : q ∈ uniquePostsAux seen l) :
    l.find? (fun r => r.id == q.id) = some q := by
  induction l generalizing seen with
  | nil => simp [uniquePostsAux] at hq
  | cons p rest ih =>
    by_cases h : p.id ∈ seen
    · rw [uniquePostsAux, if_pos h] at hq
      have hq2 : q.id ∉ seen := (mem_uniquePostsAux hq).2
      have hne : (p.id == q.id) = false := by
        simp only [beq_eq_false_iff_ne, ne_eq]
        intro he
        exact hq2 (he ▸ h)
      rw [List.find?_cons, hne]
      exact ih hq
    · rw [uniquePostsAux, if_neg h] at hq
      rcases List.mem_cons.mp hq with rfl | hq2
      · rw [List.find?_cons, beq_self_eq_true]
      · have hq3 : q.id ∉ p.id :: seen := (mem_uniquePostsAux hq2).2
        have hne : (p.id == q.id) = false := by
          simp only [beq_eq_false_iff_ne, ne_eq]
          intro he
          exact hq3 (he ▸ List.mem_cons_self _ _)
        rw [List.find?_cons, hne]
        exact ih hq2

theorem forYouPools_spec {db : List Post} {users : List User} {u : User}
    {now : Int} {limit : Nat} {p : Post}
    (hp : p ∈ forYouPools db users u now limit) :
    p ∈ db ∧ p.isActive = true ∧ p.author ∉ excludeIds u := by
  have pool1 : ∀ q, q ∈ recentPopularPool db u now limit →
      q ∈ db ∧ q.isActive = true ∧ q.author ∉ excludeIds u := by
    intro q hq
    rcases mem_queryTop hq with ⟨hdb, hf⟩
    simp only [Bool.and_eq_true, decide_eq_true_eq] at hf
    exact ⟨hdb, hf.1.1.2, hf.1.1.1⟩
  have pool2 : ∀ q, q ∈ verifiedArtistsPool db users u now limit →
      q ∈ db ∧ q.isActive = true ∧ q.author ∉ excludeIds u := by
    intro q hq
    rcases mem_queryTop hq with ⟨hdb, hf⟩
    simp only [Bool.and_eq_true, decide_eq_true_eq] at hf
    exact ⟨hdb, hf.1.2, hf.1.1.1⟩
  have pool3 : ∀ n q, q ∈ recentDiversePool db u now n →
      q ∈ db ∧ q.isActive = true ∧ q.author ∉ excludeIds u := by
    intro n q hq
    rcases mem_queryTop hq with ⟨hdb, hf⟩
    simp only [Bool.and_eq_true, decide_eq_true_eq] at hf
    exact ⟨hdb, hf.1.2, hf.1.1⟩
  simp only [forYouPools] at hp
  split_ifs at hp
  all_goals try simp only [List.mem_append] at hp
  all_goals
    first
      | exact pool1 p hp
      | (rcases hp with (hp | hp) | hp <;>
          first
            | exact pool1 p hp
            | exact pool2 p hp
            | exact pool3 _ p hp)
      | (rcases hp with hp | hp <;>
          first
            | exact pool1 p hp
            | exact pool2 p hp
            | exact pool3 _ p hp)

theorem mem_uniquePosts {l : List Post} {q : Post} (hq : q ∈ uniquePosts l) :
    q ∈ l :=
  (mem_uniquePostsAux hq).1

/-! ## Claim theorems -/

/-- C3: for every concatenation of candidate pools, `uniquePosts` keeps each
post identity exactly once; absent the randomization step, it preserves
first-seen order (it is a sublist of its input) and the representative kept
for each identity is the first occurrence of that identity in the input. -/
theorem uniquePosts_dedup_first_seen (l : List Post) :
    List.Sublist (uniquePosts l) l ∧
    ((uniquePosts l).map Post.id).Nodup ∧
    (∀ p ∈ l, ((uniquePosts l).map Post.id).count p.id = 1) ∧
    ∀ q ∈ uniquePosts l, l.find? (fun r => r.id == q.id) = some q := by
  refine ⟨uniquePostsAux_sublist [] l, (nodup_ids_uniquePostsAux [] l).1,
    ?_, ?_⟩
  · intro p hp
    exact List.count_eq_one_of_mem (nodup_ids_uniquePostsAux [] l).1
      (mem_ids_uniquePostsAux hp (by simp))
  · intro q hq
    exact find_uniquePostsAux hq

/-- Witness for C3: in the duplicated pool concatenation `[wPost, wPost]` the
identity of `wPost` is kept exactly once. -/
theorem uniquePosts_dedup_first_seen_witness :
    ((uniquePosts [wPost, wPost]).map Post.id).count wPost.id = 1 :=
  (uniquePosts_dedup_first_seen [wPost, wPost]).2.2.1 wPost (by decide)

/-- C9: a post record that fails to materialize into a response object is
silently dropped by the `postsWithUserData` stage shared by all three feeds;
the surrounding posts are annotated exactly as if the failing record were
absent, so a single per-item failure never fails the whole request. -/
theorem failing_post_dropped (viewer : Option Nat) (xs ys : List Post)
    (p : Post) (hfail : p.materializes = false) :
    postsWithUserData viewer (xs ++ p :: ys) = postsWithUserData viewer (xs ++ ys) := by
  simp [postsWithUserData, List.filterMap_append, List.filterMap_cons, hfail]

/-- Witness for C9: dropping the non-materializing `wBadPost` from between two
healthy posts leaves the healthy posts' output unchanged. -/
theorem failing_post_dropped_witness :
    postsWithUserData (some 5) ([wLikedPost] ++ wBadPost :: [wPost]) =
      postsWithUserData (some 5) ([wLikedPost] ++ [wPost]) :=
  failing_post_dropped (some 5) [wLikedPost] [wPost] wBadPost (by decide)

/-- C10: the Post like operation is idempotent on the liker set — liking when
already present leaves `likes` unchanged, `like` preserves freedom from
duplicates and grows the like count by at most one — and `unlike` removes
every occurrence of the user, so like-then-unlike of a user not originally
present restores the original post. -/
theorem like_unlike_algebra (p : Post) (userId : Nat) :
    (userId ∈ p.likes → p.like userId = p) ∧
    (p.likes.Nodup → (p.like userId).likes.Nodup) ∧
    ((p.like userId).likes.length ≤ p.likes.length + 1) ∧
    (userId ∉ (p.unlike userId).likes) ∧
    (userId ∉ p.likes → (p.like userId).unlike userId = p) := by
  refine ⟨?_, ?_, ?_, ?_, ?_⟩
  · intro h
    simp [Post.like, h]
  · intro h
    by_cases hin : userId ∈ p.likes
    · simpa [Post.like, hin] using h
    · rw [Post.like, if_neg hin]
      simp only [List.nodup_append, List.nodup_cons, List.not_mem_nil,
        not_false_eq_true, List.nodup_nil, and_true, true_and]
      exact ⟨h, fun a ha => by
        simp only [List.mem_singleton]
        exact fun he => hin (he ▸ ha)⟩
  · by_cases hin : userId ∈ p.likes <;> simp [Post.like, hin]
  · simp [Post.unlike, List.mem_filter]
  · intro h
    have h1 : p.likes.filter (fun i => decide (i ≠ userId)) = p.likes :=
      List.filter_eq_self.mpr fun a ha => by
        simp only [ne_eq, decide_eq_true_eq]
        exact fun he => h (he ▸ ha)
    have h2 : List.filter (fun i => decide (i ≠ userId)) [userId] = [] := by
      simp
    rw [Post.like, if_neg h, Post.unlike]
    rw [List.filter_append, h1, h2, List.append_nil]

/-- Witness for C10: concrete idempotence, removal, and round-trip
instances. -/
theorem like_unlike_algebra_witness :
    wLikedPost.like 5 = wLikedPost ∧
    5 ∉ (wLikedPost.unlike 5).likes ∧
    (wPost.like 6).unlike 6 = wPost :=
  ⟨(like_unlike_algebra wLikedPost 5).1 (by decide),
   (like_unlike_algebra wLikedPost 5).2.2.2.1,
   (like_unlike_algebra wPost 6).2.2.2.2 (by decide)⟩

/-- C1: every post in the for-you candidate pools — and hence in the merged,
deduplicated, shuffled, windowed for-you output — is authored neither by the
viewer nor by any member of the viewer's following-set. -/
theorem forYou_excludes_viewer_and_following (db : List Post)
    (users : List User) (u : User) (now : Int) (page limit : Nat)
    (shuffled : List Post)
    (hs : shuffled.Perm (uniquePosts (forYouPools db users u now limit))) :
    (∀ p ∈ forYouPools db users u now limit,
        p.author ≠ u.id ∧ p.author ∉ u.following) ∧
    ∀ obj ∈ (forYouFeed shuffled u page limit).posts,
      obj.post.author ≠ u.id ∧ obj.post.author ∉ u.following := by
  have hpool : ∀ p ∈ forYouPools db users u now limit,
      p.author ≠ u.id ∧ p.author ∉ u.following := by
    intro p hp
    have h3 := (forYouPools_spec hp).2.2
    simp only [excludeIds, List.mem_cons, not_or] at h3
    exact h3
  refine ⟨hpool, ?_⟩
  intro obj hobj
  have hobj' : obj ∈ postsWithUserData (some u.id)
      (forYouPage shuffled page limit) := hobj
  have h1 : obj.post ∈ forYouPage shuffled page limit :=
    (mem_postsWithUserData.mp hobj').1
  have h2 : obj.post ∈ shuffled := mem_pageWindow h1
  exact hpool _ (mem_uniquePosts (hs.mem_iff.mp h2))

/-- Witness for C1: the unrelated author of `wPost` is excluded neither as the
viewer nor as a followed user, on a concrete for-you computation. -/
theorem forYou_excludes_viewer_and_following_witness :
    wPost.author ≠ wViewer.id ∧ wPost.author ∉ wViewer.following :=
  (forYou_excludes_viewer_and_following [wPost] [] wViewer 0 1 10 [wPost]
    (by decide)).1 wPost (by decide)

/-- C2: the following feed returns only posts authored by the viewer or by a
member of the following-set (only by the viewer when the following-set is
empty), ordered pinned-first and then by creation time descending. -/
theorem followingFeed_authors_and_order (db : List Post) (u : User)
    (page limit : Nat) :
    (∀ obj ∈ (followingFeed db u page limit).posts,
        (obj.post.author = u.id ∨ obj.post.author ∈ u.following) ∧
        (u.following = [] → obj.post.author = u.id)) ∧
    (followingFeed db u page limit).posts.Pairwise
      (fun a b => byPinnedCreated a.post b.post = true) := by
  constructor
  · intro obj hobj
    have hobj' : obj ∈ postsWithUserData (some u.id)
        (followingQuery db u page limit) := hobj
    have h1 : obj.post ∈ followingQuery db u page limit :=
      (mem_postsWithUserData.mp hobj').1
    rcases mem_followingQuery h1 with ⟨_, hf⟩
    unfold followingFilter at hf
    by_cases hemp : u.following.isEmpty = true
    · rw [if_pos hemp] at hf
      simp only [Bool.and_eq_true, decide_eq_true_eq] at hf
      exact ⟨Or.inl hf.1, fun _ => hf.1⟩
    · rw [if_neg hemp] at hf
      simp only [Bool.and_eq_true, Bool.or_eq_true, decide_eq_true_eq] at hf
      refine ⟨hf.1, fun he => absurd ?_ hemp⟩
      rw [he]
      rfl
  · have hq : (followingQuery db u page limit).Pairwise
        (fun a b => byPinnedCreated a b = true) := by
      have hsorted := pairwise_sortLe byPinnedCreated byPinnedCreated_total
        byPinnedCreated_trans (db.filter (followingFilter u))
      exact hsorted.sublist
        ((List.take_sublist _ _).trans (List.drop_sublist _ _))
    have hmap : ((followingQuery db u page limit).map
        (mkPostObj (some u.id))).Pairwise
        (fun a b => byPinnedCreated a.post b.post = true) := by
      rw [List.pairwise_map]
      exact hq
    exact hmap.sublist (postsWithUserData_sublist _ _)

/-- Witness for C2: on a concrete following feed, the single returned post is
authored by the viewer. -/
theorem followingFeed_authors_and_order_witness :
    (mkPostObj (some 77) wOwnPost).post.author = wViewer.id ∨
      (mkPostObj (some 77) wOwnPost).post.author ∈ wViewer.following :=
  ((followingFeed_authors_and_order [wOwnPost] wViewer 1 10).1
    (mkPostObj (some 77) wOwnPost) (by decide)).1

/-- C4: no feed — following, for-you or discover — ever returns a post whose
active flag is false: every returned post is active. -/
theorem inactive_never_in_feeds (db : List Post) (users : List User)
    (u : User) (now : Int) (viewer : Option Nat) (page limit : Nat)
    (shuffled : List Post)
    (hs : shuffled.Perm (uniquePosts (forYouPools db users u now limit))) :
    (∀ obj ∈ (followingFeed db u page limit).posts, obj.post.isActive = true) ∧
    (∀ obj ∈ (forYouFeed shuffled u page limit).posts,
      obj.post.isActive = true) ∧
    (∀ obj ∈ (discoverFeed db now viewer page limit).posts,
      obj.post.isActive = true) := by
  refine ⟨?_, ?_, ?_⟩
  · intro obj hobj
    have hobj' : obj ∈ postsWithUserData (some u.id)
        (followingQuery db u page limit) := hobj
    have h1 : obj.post ∈ followingQuery db u page limit :=
      (mem_postsWithUserData.mp hobj').1
    rcases mem_followingQuery h1 with ⟨_, hf⟩
    unfold followingFilter at hf
    split_ifs at hf <;> simp only [Bool.and_eq_true] at hf <;> exact hf.2
  · intro obj hobj
    have hobj' : obj ∈ postsWithUserData (some u.id)
        (forYouPage shuffled page limit) := hobj
    have h1 : obj.post ∈ forYouPage shuffled page limit :=
      (mem_postsWithUserData.mp hobj').1
    have h2 : obj.post ∈ shuffled := mem_pageWindow h1
    exact (forYouPools_spec (mem_uniquePosts (hs.mem_iff.mp h2))).2.1
  · intro obj hobj
    have hobj' : obj ∈ postsWithUserData viewer
        (discoverQuery db now page limit) := hobj
    have h1 : obj.post ∈ discoverQuery db now page limit :=
      (mem_postsWithUserData.mp hobj').1
    rcases mem_discoverQuery h1 with ⟨_, hf⟩
    simp only [discoverFilter, Bool.and_eq_true] at hf
    exact hf.1

/-- Witness for C4: a concrete returned post is active. -/
theorem inactive_never_in_feeds_witness :
    (mkPostObj (some wViewer.id) wOwnPost).post.isActive = true :=
  (inactive_never_in_feeds [wOwnPost] [] wViewer 0 none 1 10 []
    (by decide)).1 (mkPostObj (some wViewer.id) wOwnPost) (by decide)

/-- C5: the discover candidate set contains a post exactly when it is active
and has interaction count (likes plus comments) at least 1 or was created
within the last 7 days; concretely, the interaction-free `stalePost` (8 days
old) is excluded from the discover feed while `freshPost` (1 day old) is
included. -/
theorem discover_inclusion (db : List Post) (now : Int) (p : Post) :
    (p ∈ discoverCandidates db now ↔
      p ∈ db ∧ p.isActive = true ∧
        (1 ≤ p.likes.length + p.comments.length ∨
          now - 7 * dayMs ≤ p.createdAt)) ∧
    (discoverFeed [stalePost] 0 none 1 10).posts = [] ∧
    (discoverFeed [freshPost] 0 none 1 10).posts = [mkPostObj none freshPost] := by
  refine ⟨?_, by decide, by decide⟩
  have h : p ∈ discoverCandidates db now ↔
      p ∈ db.filter (discoverFilter now) :=
    mem_sortLe _ _ _
  rw [h, List.mem_filter]
  simp only [discoverFilter, Bool.and_eq_true, Bool.or_eq_true,
    decide_eq_true_eq]

/-- C6: `hasNext` of the following feed is true exactly when the source query
returned exactly `limit` posts — computed before dropping malformed posts —
while the for-you `hasNext` compares the windowed slice's length with `limit`;
concretely with `limit = 10`, a query returning 10 active posts yields
`hasNext = true` (even though one record fails to materialize and only 9 posts
are returned) and a query returning 7 yields `hasNext = false`. -/
theorem hasNext_from_query_length :
    (∀ (db : List Post) (u : User) (page limit : Nat),
      ((followingFeed db u page limit).hasNext = true ↔
        (followingQuery db u page limit).length = limit)) ∧
    (∀ (shuffled : List Post) (u : User) (page limit : Nat),
      ((forYouFeed shuffled u page limit).hasNext = true ↔
        (forYouPage shuffled page limit).length = limit)) ∧
    (followingQuery wDbTen wSolo 1 10).length = 10 ∧
    (followingFeed wDbTen wSolo 1 10).hasNext = true ∧
    (followingFeed wDbTen wSolo 1 10).posts.length = 9 ∧
    (followingQuery wDbSeven wSolo 1 10).length = 7 ∧
    (followingFeed wDbSeven wSolo 1 10).hasNext = false := by
  refine ⟨?_, ?_, by decide, by decide, by decide, by decide, by decide⟩
  · intro db u page limit
    show decide ((followingQuery db u page limit).length = limit) = true ↔ _
    exact decide_eq_true_iff
  · intro shuffled u page limit
    show decide ((forYouPage shuffled page limit).length = limit) = true ↔ _
    exact decide_eq_true_iff

/-- C7: for every valid request (`page ≥ 1`, `limit > 0`) each feed returns at
most `limit` posts, and the window taken from the (post-shuffle, for for-you)
source sequence is exactly `[(page-1)*limit, page*limit)`, so for `page = 1`
it starts at element 0. -/
theorem pagination_window_spec (page limit : Nat) (hp : 1 ≤ page)
    (hl : 0 < limit) (l db : List Post) (u : User) (now : Int)
    (viewer : Option Nat) (shuffled : List Post) :
    (pageWindow l page limit).length ≤ limit ∧
    (page = 1 → pageWindow l 1 limit = l.take limit) ∧
    (∀ i, i < limit →
      (pageWindow l page limit)[i]? = l[(page - 1) * limit + i]?) ∧
    (followingFeed db u page limit).posts.length ≤ limit ∧
    (forYouFeed shuffled u page limit).posts.length ≤ limit ∧
    (discoverFeed db now viewer page limit).posts.length ≤ limit := by
  have hwin : ∀ m : List Post, (pageWindow m page limit).length ≤ limit :=
    fun m => List.length_take_le _ _
  have hresp : ∀ (v : Option Nat) (m : List Post),
      (postsWithUserData v (pageWindow m page limit)).length ≤ limit :=
    fun v m => le_trans (List.length_filterMap_le _ _) (hwin m)
  refine ⟨hwin l, ?_, ?_, hresp (some u.id) (followingCandidates db u),
    hresp (some u.id) shuffled, hresp viewer (discoverCandidates db now)⟩
  · intro _
    simp [pageWindow]
  · intro i hi
    rw [pageWindow, List.getElem?_take, if_pos hi, List.getElem?_drop]

/-- Witness for C7 at `page = 1`, `limit = 10`. -/
theorem pagination_window_spec_witness :
    (pageWindow wDbTen 1 10).length ≤ 10 :=
  (pagination_window_spec 1 10 (by decide) (by decide) wDbTen wDbTen wSolo 0
    none []).1

/-- C8: for an authenticated viewer the attached `isLikedByUser` field is true
exactly when the viewer is in the post's liker set; for an anonymous discover
request the field is absent (`none`) rather than defaulted to false. -/
theorem isLikedByUser_flag_spec (db : List Post) (now : Int) (v : Nat)
    (page limit : Nat) :
    (∀ posts : List Post, ∀ obj ∈ postsWithUserData (some v) posts,
        obj.isLikedByUser = some (obj.post.isLikedBy v) ∧
        (obj.isLikedByUser = some true ↔ v ∈ obj.post.likes)) ∧
    (∀ obj ∈ (discoverFeed db now (some v) page limit).posts,
        obj.isLikedByUser = some true ↔ v ∈ obj.post.likes) ∧
    (∀ obj ∈ (discoverFeed db now none page limit).posts,
        obj.isLikedByUser = none) := by
  have key : ∀ (viewer : Option Nat) (posts : List Post),
      ∀ obj ∈ postsWithUserData viewer posts,
        obj.isLikedByUser = viewer.map fun w => obj.post.isLikedBy w := by
    intro viewer posts obj hobj
    have h3 := (mem_postsWithUserData.mp hobj).2.2
    rw [h3]
    simp [mkPostObj]
  have auth : ∀ posts : List Post, ∀ obj ∈ postsWithUserData (some v) posts,
      obj.isLikedByUser = some (obj.post.isLikedBy v) ∧
      (obj.isLikedByUser = some true ↔ v ∈ obj.post.likes) := by
    intro posts obj hobj
    have h := key (some v) posts obj hobj
    refine ⟨h, ?_⟩
    rw [h]
    simp [Post.isLikedBy]
  refine ⟨auth, ?_, ?_⟩
  · intro obj hobj
    have hobj' : obj ∈ postsWithUserData (some v)
        (discoverQuery db now page limit) := hobj
    exact (auth _ obj hobj').2
  · intro obj hobj
    have hobj' : obj ∈ postsWithUserData none
        (discoverQuery db now page limit) := hobj
    simpa using key none _ obj hobj'

/-- Witness for C8: the annotation on a concrete liked post. -/
theorem isLikedByUser_flag_spec_witness :
    (mkPostObj (some 5) wLikedPost).isLikedByUser =
      some (wLikedPost.isLikedBy 5) :=
  ((isLikedByUser_flag_spec [] 0 5 1 10).1 [wLikedPost]
    (mkPostObj (some 5) wLikedPost) (by decide)).1
